import Mathlib

/-!
Verification of the incremental slm/markdown build script (`src/bin/slm.js`)
of the patterns-cli repository.

The JavaScript source is shallowly embedded: strings are Lean `String`s
(operated on through their `List Char` data), JavaScript objects are
association lists (`JsObj`), the filesystem is a partial map
`String → Option String`, external collaborators (the slm template engine,
the marked renderer, the beautifier) are opaque function parameters, and a
thrown-and-caught JavaScript exception is an `Except` value.
-/

set_option autoImplicit false

namespace Slm

/-! ### Character classes used by the script's regular expressions -/

/-- The `{` character, kept as a code point. -/
def obrace : Char := Char.ofNat 123

/-- The `}` character, kept as a code point. -/
def cbrace : Char := Char.ofNat 125

/-- `\w` of JavaScript regular expressions: `[A-Za-z0-9_]`. -/
def isWordChar (c : Char) : Bool :=
  (Char.ofNat 97 ≤ c && c ≤ Char.ofNat 122) ||
  (Char.ofNat 65 ≤ c && c ≤ Char.ofNat 90) ||
  (Char.ofNat 48 ≤ c && c ≤ Char.ofNat 57) ||
  c = '_'

/-- Character set of the variable-token regex `/{{\s*[\w\.\-\_]+\s*}}/g`
(the underscore is already in `\w`). -/
def isVarTokenChar (c : Char) : Bool :=
  isWordChar c || c = '.' || c = '-'

/-- Character set of the include-token regex `/include{{\s*[-@/\w\.]+\s*}}/g`. -/
def isIncTokenChar (c : Char) : Bool :=
  isWordChar c || c = '.' || c = '-' || c = '@' || c = '/'

/-- JavaScript whitespace (`\s`, and the set trimmed by `String.prototype.trim`),
restricted to the ASCII part: space, tab, newline, carriage return, vertical
tab, form feed.  The non-ASCII Unicode spaces are not modelled; no path or
token in the repository contains them. -/
def isJsWs (c : Char) : Bool :=
  c = ' ' || c = Char.ofNat 9 || c = Char.ofNat 10 ||
  c = Char.ofNat 13 || c = Char.ofNat 11 || c = Char.ofNat 12

/-! ### JavaScript string primitives -/

/-- `startsWithL s pat`: `pat` is a prefix of `s`. -/
def startsWithL : List Char → List Char → Bool
  | _, [] => true
  | [], _ :: _ => false
  | a :: as, b :: bs => a = b && startsWithL as bs

/-- `pat` is a suffix of `s`. -/
def isSuffixL (pat s : List Char) : Bool :=
  startsWithL s.reverse pat.reverse

/-- `String.prototype.includes`: substring containment anywhere. -/
def containsSubL : List Char → List Char → Bool
  | s, sub =>
    startsWithL s sub ||
      match s with
      | [] => false
      | _ :: t => containsSubL t sub

/-- `a.includes(b)` on strings. -/
def jsIncludes (s sub : String) : Bool :=
  containsSubL s.data sub.data

/-- Split `s` around the first occurrence of `pat`:
`some (before, after)` when `pat` occurs, `none` otherwise.
As in JavaScript, the empty pattern matches at position 0. -/
def splitFirstL : List Char → List Char → Option (List Char × List Char)
  | s, pat =>
    if startsWithL s pat then some ([], s.drop pat.length)
    else
      match s with
      | [] => none
      | c :: t => (splitFirstL t pat).map (fun p => (c :: p.1, p.2))

/-- The ECMAScript `GetSubstitution` expansion of a replacement string when
the search value is a plain string (so there are no capture groups):
`$$` yields `$`, `$&` yields the matched string, a `$` followed by a
backquote yields the part before the match, `$` followed by a quote yields
the part after the match, and any other `$` is literal. -/
def getSubst (matched before after : List Char) : List Char → List Char
  | [] => []
  | [c] => [c]
  | c :: c2 :: r =>
    if c = '$' then
      if c2 = '$' then '$' :: getSubst matched before after r
      else if c2 = '&' then matched ++ getSubst matched before after r
      else if c2 = Char.ofNat 96 then before ++ getSubst matched before after r
      else if c2 = Char.ofNat 39 then after ++ getSubst matched before after r
      else '$' :: getSubst matched before after (c2 :: r)
    else c :: getSubst matched before after (c2 :: r)

/-- `s.replace(pat, repl)` with string arguments: replaces the first
occurrence of `pat`, applying `GetSubstitution` to `repl`. -/
def jsReplace (s pat repl : String) : String :=
  match splitFirstL s.data pat.data with
  | none => s
  | some (bef, aft) => ⟨bef ++ getSubst pat.data bef aft repl.data ++ aft⟩

/-- Literal first-occurrence substitution (no `$`-pattern expansion); the
baseline the implicit pattern-replace claim is compared against. -/
def literalReplace (s pat repl : String) : String :=
  match splitFirstL s.data pat.data with
  | none => s
  | some (bef, aft) => ⟨bef ++ repl.data ++ aft⟩

/-- `String.prototype.trim` (ASCII whitespace, see `isJsWs`). -/
def jsTrim (s : String) : String :=
  ⟨((s.data.dropWhile isJsWs).reverse.dropWhile isJsWs).reverse⟩

/-- `s.split(sep)` for a one-character separator (the script only splits
on `'.'`): every occurrence separates, adjacent separators give empty
segments. -/
def splitOnChar (sep : Char) : List Char → List (List Char)
  | [] => [[]]
  | c :: t =>
    if c = sep then [] :: splitOnChar sep t
    else
      match splitOnChar sep t with
      | [] => [[c]]
      | seg :: rest => (c :: seg) :: rest

/-- `repl` contains no `$`, so `GetSubstitution` leaves it unchanged. -/
def noDollar (s : String) : Bool :=
  s.data.all (fun c => c ≠ '$')

/-! ### JavaScript values and objects -/

/-- A JavaScript value, as far as the script's configuration and locals
need: `undefined`, a string, a plain object, or a function reference
(`fn`, used for the injected `include` capability; its identity is
opaque). -/
inductive JsValue where
  | undefined : JsValue
  | str : String → JsValue
  | obj : List (String × JsValue) → JsValue
  | fn : JsValue

/-- A JavaScript object: an association list of own enumerable properties
in insertion order, keys unique (first binding wins on lookup). -/
abbrev JsObj := List (String × JsValue)

/-- Property read `o[k]` on the association list (the raw lookup;
absent keys are `none` here, `undefined` through `getField`). -/
def lookupField : JsObj → String → Option JsValue
  | [], _ => none
  | (k', v') :: t, k => if k' = k then some v' else lookupField t k

/-- Property write `o[k] = v`: overwrite the existing binding in place,
or append a new one (JavaScript insertion-order semantics). -/
def objSet : JsObj → String → JsValue → JsObj
  | [], k, v => [(k, v)]
  | (k', v') :: t, k, v =>
    if k' = k then (k, v) :: t else (k', v') :: objSet t k v

/-- `Object.assign(target, src)`: copy every own enumerable property of
`src` onto `target`, in order, overwriting.  The result is the *mutated
target object itself* (JavaScript mutates the first argument in place). -/
def objAssign (target src : JsObj) : JsObj :=
  src.foldl (fun acc kv => objSet acc kv.1 kv.2) target

/-- JavaScript property access `v[k]`.  On `undefined` it throws a
`TypeError`; on an object it yields the field or `undefined`; on a string
or function primitive it yields `undefined` (built-in properties such as
`length` are not modelled — no configuration path in the repository reads
them). -/
def getField : JsValue → String → Except String JsValue
  | .undefined, k => .error ("TypeError: Cannot read properties of undefined (reading " ++ k ++ ")")
  | .str _, _ => .ok .undefined
  | .fn, _ => .ok .undefined
  | .obj fs, k => .ok ((lookupField fs k).getD .undefined)

/-- The `while (variable.length) obj = obj[variable.shift()]` loop of
`mrkdwn.vars`: walk the value field by field, propagating a thrown
`TypeError`. -/
def traverseCfg : JsValue → List String → Except String JsValue
  | v, [] => .ok v
  | v, k :: ks =>
    match getField v k with
    | .error e => .error e
    | .ok w => traverseCfg w ks

/-- `ToString` as the script exercises it (the replacement argument of
`String.prototype.replace`): `undefined` prints as `"undefined"`, strings
as themselves, plain objects as `"[object Object]"`; a function stringifies
to its source text, modelled by an opaque marker. -/
def jsToString : JsValue → String
  | .undefined => "undefined"
  | .str s => s
  | .obj _ => "[object Object]"
  | .fn => "function () [source text]"

/-- JavaScript truthiness for the values of this model
(`if (opts.config.beautify)`). -/
def jsTruthy : JsValue → Bool
  | .undefined => false
  | .str s => !s.isEmpty
  | .obj _ => true
  | .fn => true

/-! ### The two micro-syntax scanners

Both regular expressions of the script have the shape
`open ++ \s* ++ charset+ ++ \s* ++ two closing braces`, where the
character set never contains whitespace or a closing brace.  For such a
pattern a backtracking regex engine is equivalent to taking maximal runs,
so the scanner below is an exact model of `String.prototype.match` with
the `g` flag: try a match at each position, and continue after the end of
each match found. -/

/-- Try to match `open ++ \s* ++ charset+ ++ \s* ++ "}}"` at the head of
`s`; on success return the matched substring and the remainder. -/
def matchTokenAt (opn : List Char) (charset : Char → Bool) (s : List Char) :
    Option (List Char × List Char) :=
  if startsWithL s opn then
    let s1 := s.drop opn.length
    let ws1 := s1.takeWhile isJsWs
    let s2 := s1.dropWhile isJsWs
    let core := s2.takeWhile charset
    let s3 := s2.dropWhile charset
    if core = [] then none
    else
      let ws2 := s3.takeWhile isJsWs
      let s4 := s3.dropWhile isJsWs
      if startsWithL s4 [cbrace, cbrace] then
        some (opn ++ ws1 ++ core ++ ws2 ++ [cbrace, cbrace], s4.drop 2)
      else none
  else none

/-- One scanner step per unit of fuel.  Every step consumes at least one
character of the input (a successful match consumes at least the two
closing braces, a failed position advances by one), so `fuel = s.length`
runs the scan to completion. -/
def scanTokensAux (opn : List Char) (charset : Char → Bool) :
    Nat → List Char → List (List Char)
  | 0, _ => []
  | _, [] => []
  | Nat.succ fuel, c :: t =>
    match matchTokenAt opn charset (c :: t) with
    | some (m, rest) => m :: scanTokensAux opn charset fuel rest
    | none => scanTokensAux opn charset fuel t

/-- `s.match(re)` with the global flag: the list of matched substrings,
left to right, non-overlapping. -/
def scanTokens (opn : List Char) (charset : Char → Bool) (s : List Char) :
    List (List Char) :=
  scanTokensAux opn charset s.length s

/-- Opening literal of the variable-token regex: two `{`. -/
def braceOpen : List Char := [obrace, obrace]

/-- Opening literal of the include-token regex: `include{{`. -/
def incOpen : List Char := "include".data ++ braceOpen

/-! ### Node `path` primitives (posix)

Only the behaviors the script exercises are modelled; each definition
follows the `path.posix` algorithm of Node. -/

/-- `path.join(a, b)` for the joins the script performs: every call site
joins a non-empty, slash-free-tailed directory with a relative segment, so
the join is plain concatenation with one separator (the `.`/`..`
normalization of Node is never reached by the script's inputs). -/
def pathJoin (a b : String) : String :=
  a ++ "/" ++ b

/-- `path.dirname(p)` (posix): strip trailing separators, then everything
from the last separator on; no separator left means `"."` (or `"/"` for
an absolute path). -/
def pathDirname (p : String) : String :=
  let r := p.data.reverse
  let r1 := r.dropWhile (fun c => c = '/')
  let r2 := r1.dropWhile (fun c => c ≠ '/')
  match r2 with
  | [] => if p.data.head? = some '/' then "/" else "."
  | _ :: rest => if rest = [] then "/" else ⟨rest.reverse⟩

/-- `path.basename(p)`: the last segment, ignoring trailing separators. -/
def pathBasenameRaw (p : String) : String :=
  ⟨((p.data.reverse.dropWhile (fun c => c = '/')).takeWhile (fun c => c ≠ '/')).reverse⟩

/-- `path.basename(p, ext)`: the last segment, with `ext` stripped when it
is a proper suffix of that segment. -/
def pathBasename (p ext : String) : String :=
  let b := pathBasenameRaw p
  if b = ext then b
  else if isSuffixL ext.data b.data then ⟨b.data.take (b.data.length - ext.data.length)⟩
  else b

/-- `path.extname(p)` (posix): the part of the last segment from its last
dot on; empty when the segment has no dot, when the only dot is leading
(hidden files), and for the special segment `".."`. -/
def pathExtname (p : String) : String :=
  let seg := (p.data.reverse.takeWhile (fun c => c ≠ '/')).reverse
  if seg = ['.', '.'] then ""
  else
    let revSeg := seg.reverse
    let afterDot := revSeg.takeWhile (fun c => c ≠ '.')
    match revSeg.dropWhile (fun c => c ≠ '.') with
    | [] => ""
    | _ :: pre => if pre = [] then "" else ⟨'.' :: afterDot.reverse⟩

/-! ### The `options()` surface -/

/-- The fields of `config/global` the script reads. -/
structure GlobalCfg where
  base : String
  src : String
  dist : String
  entryViews : String

/-- The object returned by `options()` (the `globs` field is omitted:
it only configures the chokidar watcher and no claim concerns it). -/
structure Opts where
  config : JsObj
  source : String
  dist : String
  base_path : String
  views : String
  ext : String

/-- `options()`: derive the path surface from the global configuration and
the freshly re-read `config/slm` object. -/
def options (g : GlobalCfg) (cfg : JsObj) : Opts :=
  let source := pathJoin g.base g.src
  { config := cfg
    source := source
    dist := pathJoin g.base g.dist
    base_path := source
    views := pathJoin source g.entryViews
    ext := ".slm" }

/-! ### Markdown post-processing (`mrkdwn`) -/

/-- The body of `blocks.forEach` in `mrkdwn.slm`: strip the delimiters
from the matched directive (`.replace('include\x7b\x7b','')`, then
`.replace('\x7d\x7d','')`, then `.trim()`), resolve the inner path through
the include engine `inc`, and substitute the compiled fragment for the
first occurrence of the directive with `data.replace(element, compiled)`. -/
def incStep (inc : String → String) (d : String) (el : List Char) : String :=
  let elS : String := ⟨el⟩
  let file := jsTrim (jsReplace (jsReplace elS ⟨incOpen⟩ "") ⟨[cbrace, cbrace]⟩ "")
  jsReplace d elS (inc file)

/-- `mrkdwn.slm(data)`: match every `include\x7b\x7b ... \x7d\x7d`
directive of the rendered HTML, then substitute each in turn.  The include
engine is a parameter so the definition stays first order; its result is
the string JavaScript would coerce the compiled fragment to. -/
def mrkdwn_slm (inc : String → String) (data : String) : String :=
  (scanTokens incOpen isIncTokenChar data.data).foldl (incStep inc) data

/-- The dotted configuration path of a matched variable token:
`element.replace('\x7b\x7b','').replace('\x7d\x7d','').replace('this.','')
.trim().split('.')`. -/
def varPath (elS : String) : List String :=
  (splitOnChar '.'
      (jsTrim (jsReplace (jsReplace (jsReplace elS ⟨braceOpen⟩ "") ⟨[cbrace, cbrace]⟩ "")
        "this." "")).data).map (fun l => (⟨l⟩ : String))

/-- The body of `blocks.forEach` in `mrkdwn.vars`: a token is processed
only `if (element.includes('this.'))`; processing walks the configuration
along the dotted path (which may throw, see `traverseCfg`) and substitutes
the stringified value for the first occurrence of the token. -/
def varsStep (config : JsValue) (d : String) (el : List Char) :
    Except String String :=
  let elS : String := ⟨el⟩
  if jsIncludes elS "this." then
    match traverseCfg config (varPath elS) with
    | .error e => .error e
    | .ok v => .ok (jsReplace d elS (jsToString v))
  else .ok d

/-- `mrkdwn.vars(data)`: match every `\x7b\x7b ... \x7d\x7d` token, then
process each in turn; a thrown `TypeError` aborts the pass (it is caught
by the `try` of `compile.md`). -/
def mrkdwn_vars (config : JsValue) (data : String) : Except String String :=
  (scanTokens braceOpen isVarTokenChar data.data).foldlM (varsStep config) data

/-! ### The include engine -/

/-- The resolution part of `include(file)`: determine the extension
(appending `opts.ext` and treating the file as slm when there is none),
join under the source root, and pick the compile handler
(`extname.replace('.','')`, looked up in the `compile` object whose own
properties are `slm`, `md` and `default`; unregistered extensions fall
back to `default` with a logged notice).  Returns the resolved path and
the chosen handler key. -/
def includeResolve (opts : Opts) (file : String) : String × String :=
  let extname := pathExtname file
  let pair := if extname = "" then (opts.ext, file ++ opts.ext) else (extname, file)
  let handler := jsReplace pair.1 "." ""
  let resolved := pathJoin opts.source pair.2
  (resolved,
    if handler = "slm" || handler = "md" || handler = "default" then handler
    else "default")

/-! ### The three registered compilers

The filesystem is a partial map `fsys : String → Option String` from path
to contents (`fs.existsSync` is `(fsys file).isSome`, `fs.readFileSync`
its value).  The slm template engine and the beautifier are opaque
collaborators passed as functions; an engine failure is the `Except.error`
case and lands in the `catch` of `compile.slm`, which logs and returns
`undefined` — modelled as `none`. -/

/-- The locals object produced by
`locals = Object.assign(locals, opts.config); locals.include = include`.
Because `Object.assign` mutates its first argument in place and returns
it, this object is simultaneously the evaluation context handed to the
template engine *and* the state of the caller's original `locals` object
after the call. -/
def mergedLocals (cfg locals : JsObj) : JsObj :=
  objSet (objAssign locals cfg) "include" JsValue.fn

/-- `compile.slm(file, locals)`.  The first component is the returned
value (`some html`, `some ""` for a missing file, `none` for the caught
failure whose return value is `undefined`).  The second component is the
state of the *caller's* `locals` object after the call: it stays untouched
only on the missing-file early return; otherwise it is `mergedLocals`. -/
def compileSlm (fsys : String → Option String)
    (engine : String → String → JsObj → Except String String)
    (beautifier : String → JsValue → String)
    (cfg : JsObj) (locals : JsObj) (file : String) :
    Option String × JsObj :=
  match fsys file with
  | none => (some "", locals)
  | some src =>
    let merged := mergedLocals cfg locals
    match engine src file merged with
    | .error _ => (none, merged)
    | .ok data =>
      let b := (lookupField cfg "beautify").getD JsValue.undefined
      (some (if jsTruthy b then beautifier data b else data), merged)

/-- The body of `compile.md(file)` before its `catch`: missing file gives
`''`; otherwise render the markdown (`marked`, an opaque collaborator
`render`), run the include pass, then the variable pass. -/
def compileMdBody (fsys : String → Option String) (render : String → String)
    (inc : String → String) (config : JsValue) (file : String) :
    Except String String :=
  match fsys file with
  | none => .ok ""
  | some md => mrkdwn_vars config (mrkdwn_slm inc (render md))

/-- `compile.md(file)`: a failure thrown by either pass is caught, logged,
and the function returns `undefined` — modelled as `none`. -/
def compileMd (fsys : String → Option String) (render : String → String)
    (inc : String → String) (config : JsValue) (file : String) :
    Option String :=
  match compileMdBody fsys render inc config file with
  | .ok s => some s
  | .error _ => none

/-- `compile.default(file)`: missing file gives `''`, otherwise the raw
contents. -/
def compileDefault (fsys : String → Option String) (file : String) :
    Option String :=
  match fsys file with
  | none => some ""
  | some s => some s

/-! ### `main`, `walk` and the watcher's change router -/

/-- The guard of `main(file)`: the file is compiled and written exactly
when `file.includes(options().ext)` — substring containment, not a suffix
test. -/
def mainCompiles (opts : Opts) (file : String) : Bool :=
  jsIncludes file opts.ext

/-- The path resolution and branch decision of `walk(file, dir)`: default
`dir` to the views directory, prepend it unless `file.includes(dir)`, and
compile (via `main`) exactly when the resolved path contains the
extension; otherwise the path is treated as a directory to recurse into.
Returns the resolved path and the decision. -/
def walkResolve (opts : Opts) (file : String) (dir : Option String) :
    String × Bool :=
  let d := dir.getD opts.views
  let f := if jsIncludes file d then file else pathJoin d file
  (f, jsIncludes f opts.ext)

/-- The `views.some(...)` test of the watcher's change handler: some view
"has" the changed file when the changed file's `path.dirname` contains the
view's base name (extension stripped) as a substring and does not contain
the views directory path as a substring. -/
def hasView (views : List String) (opts : Opts) (dirV changed : String) : Bool :=
  views.any fun view =>
    let pttrn := pathBasename view opts.ext
    jsIncludes (pathDirname changed) pttrn && !(jsIncludes (pathDirname changed) dirV)

/-- Outcome of one `change` event in development mode. -/
inductive RouteAction where
  | single : String → RouteAction
  | fullWalk : RouteAction
deriving DecidableEq

/-- The development-mode classification of the change handler: rewrite the
target to `path.join(dir, basename(dirname(changed)) + ext)` when some
view has the file; run `main` on the (possibly rewritten) target when the
file has a view or is inside the views directory (`changed.includes(dir)`),
else walk the whole views directory. -/
def routeAction (views : List String) (opts : Opts) (dirV changed : String) :
    RouteAction :=
  let hv := hasView views opts dirV changed
  let inViews := jsIncludes changed dirV
  let target :=
    if hv then pathJoin dirV (pathBasenameRaw (pathDirname changed) ++ opts.ext)
    else changed
  if hv || inViews then .single target else .fullWalk

/-! ### Concrete collaborators used by the closed instances -/

/-- A filesystem on which every path exists with a one-line slm body. -/
def fsysConst : String → Option String := fun _ => some "div"

/-- A template engine run that succeeds. -/
def engineOk : String → String → JsObj → Except String String :=
  fun _ _ _ => .ok "<div></div>"

/-- A beautifier that returns its input unchanged. -/
def beautId : String → JsValue → String := fun d _ => d

/-- An include engine whose compiled fragment is the replacement pattern
`$&`. -/
def incDollar : String → String := fun _ => "$&"

/-- A filesystem holding one markdown document that is a single include
directive. -/
def fsysC6 : String → Option String :=
  fun f => if f = "doc.md" then some "include\x7b\x7b partial \x7d\x7d" else none

/-- An include engine resolving `partial` to a fragment that consists of a
`this.`-token. -/
def incC6 : String → String :=
  fun f => if f = "partial" then "\x7b\x7b this.title \x7d\x7d" else ""

/-- A filesystem holding one markdown document whose only token walks a
two-step configuration path. -/
def fsysC7 : String → Option String :=
  fun f => if f = "doc.md" then some "\x7b\x7b this.a.b \x7d\x7d" else none

/-! ### Helper lemmas -/

theorem mk_data (s : String) : (⟨s.data⟩ : String) = s := rfl

theorem startsWithL_refl (l : List Char) : startsWithL l l = true := by
  induction l with
  | nil => rfl
  | cons c t ih => simp [startsWithL, ih]

theorem splitFirstL_self (l : List Char) : splitFirstL l l = some ([], []) := by
  unfold splitFirstL
  simp [startsWithL_refl, List.drop_length]

theorem getSubst_of_no_dollar (m b a : List Char) :
    ∀ l : List Char, (∀ c ∈ l, c ≠ '$') → getSubst m b a l = l := by
  intro l
  induction l with
  | nil => intro _; rfl
  | cons c r ih =>
    intro h
    have hc : c ≠ '$' := h c (by simp)
    cases r with
    | nil => simp [getSubst]
    | cons c2 r2 =>
      rw [show getSubst m b a (c :: c2 :: r2) =
            (if c = '$' then
              if c2 = '$' then '$' :: getSubst m b a r2
              else if c2 = '&' then m ++ getSubst m b a r2
              else if c2 = Char.ofNat 96 then b ++ getSubst m b a r2
              else if c2 = Char.ofNat 39 then a ++ getSubst m b a r2
              else '$' :: getSubst m b a (c2 :: r2)
            else c :: getSubst m b a (c2 :: r2)) from rfl]
      rw [if_neg hc, ih (fun x hx => h x (by simp [hx]))]

/-- A `$`-free replacement string substitutes literally; in particular
replacing the whole string by it yields it back. -/
theorem jsReplace_self (el v : String) (h : ∀ c ∈ v.data, c ≠ '$') :
    jsReplace el el v = v := by
  unfold jsReplace
  rw [splitFirstL_self]
  simp [getSubst_of_no_dollar _ _ _ _ h]

theorem noDollar_spec (v : String) (h : noDollar v = true) :
    ∀ c ∈ v.data, c ≠ '$' := by
  simpa [noDollar, List.all_eq_true] using h

theorem lookupField_objSet_self (o : JsObj) (k : String) (v : JsValue) :
    lookupField (objSet o k v) k = some v := by
  induction o with
  | nil => simp [objSet, lookupField]
  | cons p t ih =>
    obtain ⟨k', v'⟩ := p
    by_cases hk : k' = k
    · simp [objSet, lookupField, hk]
    · simp [objSet, lookupField, hk, ih]

theorem lookupField_objSet_other (o : JsObj) (k k' : String) (v : JsValue)
    (h : k' ≠ k) : lookupField (objSet o k v) k' = lookupField o k' := by
  have h' : ¬ k = k' := fun hh => h hh.symm
  induction o with
  | nil => simp [objSet, lookupField, h']
  | cons p t ih =>
    obtain ⟨k0, v0⟩ := p
    by_cases hk : k0 = k
    · subst hk
      simp [objSet, lookupField, h']
    · simp [objSet, lookupField, hk, ih]

theorem lookupField_none_of_not_mem (o : JsObj) (k : String)
    (h : k ∉ o.map Prod.fst) : lookupField o k = none := by
  induction o with
  | nil => rfl
  | cons p t ih =>
    obtain ⟨k0, v0⟩ := p
    simp only [List.map_cons, List.mem_cons] at h
    push_neg at h
    have h0 : ¬ k0 = k := fun hh => h.1 hh.symm
    simp [lookupField, h0, ih h.2]

theorem lookupField_objAssign_of_none (src : JsObj) (k : String) :
    ∀ t : JsObj, lookupField src k = none →
      lookupField (objAssign t src) k = lookupField t k := by
  induction src with
  | nil => intro t _; rfl
  | cons p rest ih =>
    intro t h
    obtain ⟨k0, v0⟩ := p
    by_cases h0 : k0 = k
    · simp [lookupField, h0] at h
    · simp only [lookupField, if_neg h0] at h
      rw [show objAssign t ((k0, v0) :: rest) = objAssign (objSet t k0 v0) rest from rfl]
      rw [ih _ h]
      exact lookupField_objSet_other _ _ _ _ (fun hh => h0 hh.symm)

/-- On an object with unique keys (every JavaScript object), `Object.assign`
makes every source binding visible on the target. -/
theorem lookupField_objAssign_of_some (src : JsObj) (k : String) (v : JsValue) :
    ∀ t : JsObj, (src.map Prod.fst).Nodup → lookupField src k = some v →
      lookupField (objAssign t src) k = some v := by
  induction src with
  | nil => intro t _ h; simp [lookupField] at h
  | cons p rest ih =>
    intro t hnd h
    obtain ⟨k0, v0⟩ := p
    simp only [List.map_cons, List.nodup_cons] at hnd
    rw [show objAssign t ((k0, v0) :: rest) = objAssign (objSet t k0 v0) rest from rfl]
    by_cases h0 : k0 = k
    · subst h0
      have hv : v0 = v := by simpa [lookupField] using h
      subst hv
      rw [lookupField_objAssign_of_none rest k0 _
        (lookupField_none_of_not_mem _ _ hnd.1)]
      exact lookupField_objSet_self _ _ _
    · simp only [lookupField, if_neg h0] at h
      exact ih _ hnd.2 h

/-- A variable token the `if (element.includes('this.'))` guard rejects
leaves the data unchanged, so the whole pass is the identity when no
matched token contains `this.`. -/
theorem foldlM_varsStep_skip (cfg : JsValue) :
    ∀ (blocks : List (List Char)) (d : String),
      (∀ b ∈ blocks, jsIncludes ⟨b⟩ "this." = false) →
      List.foldlM (varsStep cfg) d blocks = .ok d := by
  intro blocks
  induction blocks with
  | nil => intro d _; rfl
  | cons b bs ih =>
    intro d h
    have hb : jsIncludes ⟨b⟩ "this." = false := h b (by simp)
    rw [List.foldlM_cons, show varsStep cfg d b = .ok d from by simp [varsStep, hb]]
    simpa using ih d (fun x hx => h x (by simp [hx]))

/-- Whatever the template engine does, once the source file exists the
caller's `locals` object has been turned into `mergedLocals`. -/
theorem compileSlm_snd (fsys : String → Option String)
    (engine : String → String → JsObj → Except String String)
    (beaut : String → JsValue → String) (cfg locals : JsObj) (file src : String)
    (h : fsys file = some src) :
    (compileSlm fsys engine beaut cfg locals file).2 = mergedLocals cfg locals := by
  simp only [compileSlm, h]
  cases engine src file (mergedLocals cfg locals) <;> simp

/-- A variable pass whose scan finds exactly one token, accepted by the
`this.` guard, with a successful configuration walk: the result replaces
the token by the stringified value. -/
theorem mrkdwn_vars_single_ok (cfg : JsValue) (data elS : String) (v : JsValue)
    (hscan : scanTokens braceOpen isVarTokenChar data.data = [elS.data])
    (hinc : jsIncludes elS "this." = true)
    (htrav : traverseCfg cfg (varPath elS) = .ok v) :
    mrkdwn_vars cfg data = .ok (jsReplace data elS (jsToString v)) := by
  unfold mrkdwn_vars
  rw [hscan]
  simp [List.foldlM, varsStep, mk_data, hinc, htrav]

/-- A variable pass whose scan finds exactly one token, accepted by the
`this.` guard, whose configuration walk throws: the pass rethrows. -/
theorem mrkdwn_vars_single_err (cfg : JsValue) (data elS : String) (e : String)
    (hscan : scanTokens braceOpen isVarTokenChar data.data = [elS.data])
    (hinc : jsIncludes elS "this." = true)
    (htrav : traverseCfg cfg (varPath elS) = .error e) :
    mrkdwn_vars cfg data = .error e := by
  unfold mrkdwn_vars
  rw [hscan]
  simp [List.foldlM, varsStep, mk_data, hinc, htrav]

/-! ### The claims -/

/-- C1 counterexample: compiling `f.slm` with caller locals `\x7b\x7d`
(the empty mapping) and configuration `\x7ba: "1"\x7d` leaves both the
configuration key `a` and the injected `include` capability observable in
the caller's locals object after the call, which is therefore no longer
the mapping the caller supplied — refuting the claim that the merge does
not leak back into the caller's original mapping. -/
theorem c1_counterexample :
    lookupField (compileSlm fsysConst engineOk beautId
      [("a", JsValue.str "1")] [] "f.slm").2 "include" = some JsValue.fn ∧
    lookupField (compileSlm fsysConst engineOk beautId
      [("a", JsValue.str "1")] [] "f.slm").2 "a" = some (JsValue.str "1") ∧
    (compileSlm fsysConst engineOk beautId
      [("a", JsValue.str "1")] [] "f.slm").2 ≠ ([] : JsObj) := by
  refine ⟨rfl, rfl, ?_⟩
  rw [show (compileSlm fsysConst engineOk beautId
      [("a", JsValue.str "1")] [] "f.slm").2 =
    [("a", JsValue.str "1"), ("include", JsValue.fn)] from rfl]
  exact List.cons_ne_nil _ _

/-- C1 (amended): compile.slm does modify the caller's original mapping —
`Object.assign(locals, opts.config)` merges the configuration into the
caller's locals object in place and `locals.include = include` writes the
include capability to it, so whenever the source file exists the caller's
object is the merged object afterwards: the `include` capability is
observable on it, and every configuration key other than `include` is
observable with the configuration's value.  Only the missing-file early
return leaves the caller's mapping untouched. -/
theorem c1_amended (fsys : String → Option String)
    (engine : String → String → JsObj → Except String String)
    (beaut : String → JsValue → String) (cfg locals : JsObj) (file src : String)
    (hex : fsys file = some src) (hnd : (cfg.map Prod.fst).Nodup) :
    lookupField (compileSlm fsys engine beaut cfg locals file).2 "include" =
      some JsValue.fn ∧
    ∀ k v, k ≠ "include" → lookupField cfg k = some v →
      lookupField (compileSlm fsys engine beaut cfg locals file).2 k = some v := by
  rw [compileSlm_snd fsys engine beaut cfg locals file src hex]
  refine ⟨lookupField_objSet_self _ _ _, ?_⟩
  intro k v hk hv
  rw [mergedLocals, lookupField_objSet_other _ _ _ _ hk]
  exact lookupField_objAssign_of_some cfg k v locals hnd hv

/-- C1 witness: the amended theorem at a concrete compile. -/
theorem c1_amended_witness :
    lookupField (compileSlm fsysConst engineOk beautId
      [("title", JsValue.str "T")] [("x", JsValue.str "0")] "v.slm").2 "include" =
      some JsValue.fn ∧
    lookupField (compileSlm fsysConst engineOk beautId
      [("title", JsValue.str "T")] [("x", JsValue.str "0")] "v.slm").2 "title" =
      some (JsValue.str "T") :=
  ⟨(c1_amended fsysConst engineOk beautId _ _ "v.slm" "div" rfl (by simp)).1,
   (c1_amended fsysConst engineOk beautId _ _ "v.slm" "div" rfl (by simp)).2
     "title" (JsValue.str "T") (by decide) rfl⟩

/-- C2 counterexample: for views `["home.slm"]` with views directory
`b/s/v`, the changed path `b/s/v/home/hero.slm` satisfies the claim's
ownership condition — the name of its containing directory, `home`,
equals the view's base name, and that directory is not the views
directory itself — yet the code classifies no view as owning it (because
`path.dirname(changed)` contains the views directory as a substring, the
second conjunct of the code's test fails), and the compile target stays
the changed partial itself instead of the view's file. -/
theorem c2_counterexample :
    pathBasenameRaw (pathDirname "b/s/v/home/hero.slm") =
      pathBasename "home.slm" (options ⟨"b", "s", "d", "v"⟩ []).ext ∧
    pathDirname "b/s/v/home/hero.slm" ≠ "b/s/v" ∧
    hasView ["home.slm"] (options ⟨"b", "s", "d", "v"⟩ []) "b/s/v"
      "b/s/v/home/hero.slm" = false ∧
    routeAction ["home.slm"] (options ⟨"b", "s", "d", "v"⟩ []) "b/s/v"
      "b/s/v/home/hero.slm" = .single "b/s/v/home/hero.slm" :=
  ⟨by decide, by decide, by decide, by decide⟩

/-- C2 (amended): the change router classifies view `V` as owning changed
path `C` exactly when `V`'s base name (extension stripped) occurs as a
substring anywhere in `path.dirname(C)` and `path.dirname(C)` does not
contain the views directory path as a substring (so a change under the
views directory is never classified as owned); when some view owns `C`
the compile target is rewritten to
`path.join(viewsDir, basename(dirname(C)) + ext)` — built from `C`'s
parent directory name, which is the owning view's file only when that
name equals the view's base name. -/
theorem c2_amended (views : List String) (opts : Opts) (dirV changed : String) :
    (hasView views opts dirV changed = true ↔
      ∃ v ∈ views, jsIncludes (pathDirname changed) (pathBasename v opts.ext) = true ∧
        jsIncludes (pathDirname changed) dirV = false) ∧
    (hasView views opts dirV changed = true →
      routeAction views opts dirV changed =
        .single (pathJoin dirV (pathBasenameRaw (pathDirname changed) ++ opts.ext))) := by
  constructor
  · simp [hasView, List.any_eq_true]
  · intro h
    simp [routeAction, h]

/-- C2 witness: a partial outside the views directory, in a directory
named after the view, routes to recompiling that view. -/
theorem c2_amended_witness :
    routeAction ["home.slm"] (options ⟨"b", "s", "d", "v"⟩ []) "b/s/v"
      "b/s/partials/home/hero.slm" = .single "b/s/v/home.slm" :=
  ((c2_amended ["home.slm"] (options ⟨"b", "s", "d", "v"⟩ []) "b/s/v"
      "b/s/partials/home/hero.slm").2 (by decide)).trans (by decide)

/-- C3 counterexample: the token `\x7b\x7b x.this.y \x7d\x7d` has dotted
path `x.this.y`, which does not begin with `this.`; yet because the guard
is `element.includes('this.')` (substring containment) and the path is
formed by deleting the first occurrence of `this.`, the token is
substituted with the configuration value at `x.y` instead of being left
character-for-character untouched. -/
theorem c3_counterexample :
    startsWithL "x.this.y".data "this.".data = false ∧
    mrkdwn_vars (JsValue.obj [("x", JsValue.obj [("y", JsValue.str "V")])])
      "\x7b\x7b x.this.y \x7d\x7d" = .ok "V" ∧
    ("V" : String) ≠ "\x7b\x7b x.this.y \x7d\x7d" :=
  ⟨by decide, rfl, by decide⟩

/-- C3 (amended): a matched token is substituted exactly when it contains
`this.` as a substring (deleting the first occurrence of `this.` to form
the configuration path, so the token need not begin with `this.`): when no
matched token of a document contains `this.` the pass returns the document
unchanged, and a `\x7b\x7b this.site.name \x7d\x7d` token resolves to the
nested configuration value at `config.site.name`. -/
theorem c3_amended :
    (∀ (cfg : JsValue) (data : String),
        (∀ b ∈ scanTokens braceOpen isVarTokenChar data.data,
          jsIncludes ⟨b⟩ "this." = false) →
        mrkdwn_vars cfg data = .ok data) ∧
    (∀ (cfg flds : JsObj) (v : String),
        lookupField cfg "site" = some (JsValue.obj flds) →
        lookupField flds "name" = some (JsValue.str v) →
        noDollar v = true →
        mrkdwn_vars (JsValue.obj cfg) "\x7b\x7b this.site.name \x7d\x7d" = .ok v) := by
  constructor
  · intro cfg data h
    exact foldlM_varsStep_skip cfg _ data h
  · intro cfg flds v h1 h2 h3
    have htrav : traverseCfg (JsValue.obj cfg)
        (varPath "\x7b\x7b this.site.name \x7d\x7d") = .ok (JsValue.str v) := by
      rw [show varPath "\x7b\x7b this.site.name \x7d\x7d" = ["site", "name"] from rfl]
      simp [traverseCfg, getField, h1, h2]
    rw [mrkdwn_vars_single_ok (JsValue.obj cfg) "\x7b\x7b this.site.name \x7d\x7d"
        "\x7b\x7b this.site.name \x7d\x7d" _ rfl (by decide) htrav,
      show jsToString (JsValue.str v) = v from rfl,
      jsReplace_self _ _ (noDollar_spec v h3)]

/-- C3 witness: a `this.`-free token survives, a `this.site.name` token
resolves. -/
theorem c3_amended_witness :
    mrkdwn_vars (JsValue.obj []) "hello \x7b\x7b foo \x7d\x7d" =
      .ok "hello \x7b\x7b foo \x7d\x7d" ∧
    mrkdwn_vars (JsValue.obj [("site", JsValue.obj [("name", JsValue.str "NYCO")])])
      "\x7b\x7b this.site.name \x7d\x7d" = .ok "NYCO" :=
  ⟨c3_amended.1 (JsValue.obj []) "hello \x7b\x7b foo \x7d\x7d" (by decide),
   c3_amended.2 [("site", JsValue.obj [("name", JsValue.str "NYCO")])]
     [("name", JsValue.str "NYCO")] "NYCO" rfl rfl rfl⟩

/-- C4 counterexample: with the key `include` present in both the caller's
locals and the configuration, the value visible to the template for that
key is the injected include capability, not the configuration's value —
refuting the universal "configuration wins over same-named locals". -/
theorem c4_counterexample :
    lookupField ([("include", JsValue.str "C")] : JsObj) "include" =
      some (JsValue.str "C") ∧
    (compileSlm fsysConst engineOk beautId [("include", JsValue.str "C")]
      [("include", JsValue.str "L")] "f.slm").2 =
      mergedLocals [("include", JsValue.str "C")] [("include", JsValue.str "L")] ∧
    lookupField (mergedLocals [("include", JsValue.str "C")]
      [("include", JsValue.str "L")]) "include" = some JsValue.fn ∧
    some JsValue.fn ≠ some (JsValue.str "C") := by
  refine ⟨rfl, rfl, rfl, ?_⟩
  intro hh
  injection hh with hh2
  exact JsValue.noConfusion hh2

/-- C4 (amended): in the locals object compile.slm hands the template,
every key present in both the caller's locals and the configuration other
than `include` carries the configuration's value (configuration wins);
the key `include` is unconditionally rebound afterwards to the injected
include capability, overriding both sides. -/
theorem c4_amended (cfg locals : JsObj) (k : String) (v : JsValue)
    (hk : k ≠ "include") (hnd : (cfg.map Prod.fst).Nodup)
    (hv : lookupField cfg k = some v) :
    lookupField (mergedLocals cfg locals) k = some v ∧
    lookupField (mergedLocals cfg locals) "include" = some JsValue.fn := by
  constructor
  · rw [mergedLocals, lookupField_objSet_other _ _ _ _ hk]
    exact lookupField_objAssign_of_some cfg k v locals hnd hv
  · exact lookupField_objSet_self _ _ _

/-- C4 witness: the configuration's `title` beats the locals' `title`. -/
theorem c4_amended_witness :
    lookupField (mergedLocals [("title", JsValue.str "Cfg")]
      [("title", JsValue.str "Loc")]) "title" = some (JsValue.str "Cfg") ∧
    lookupField (mergedLocals [("title", JsValue.str "Cfg")]
      [("title", JsValue.str "Loc")]) "include" = some JsValue.fn :=
  c4_amended [("title", JsValue.str "Cfg")] [("title", JsValue.str "Loc")]
    "title" (JsValue.str "Cfg") (by decide) (by simp) rfl

/-- C5: an include reference without an extension resolves to the
reference with the default template extension appended, joined under the
source root, and is dispatched to the slm handler; a reference with an
explicit extension resolves verbatim under the source root. -/
theorem c5_include_resolution (g : GlobalCfg) (cfg : JsObj) (ref : String) :
    (pathExtname ref = "" →
      includeResolve (options g cfg) ref =
        (pathJoin (options g cfg).source (ref ++ ".slm"), "slm")) ∧
    (pathExtname ref ≠ "" →
      (includeResolve (options g cfg) ref).1 = pathJoin (options g cfg).source ref) := by
  constructor
  · intro h
    simp [includeResolve, options, h]
    decide
  · intro h
    simp [includeResolve, options, h]

/-- C5 witness: `partial` resolves to `b/s/partial.slm` handled as slm;
`code.md` resolves verbatim to `b/s/code.md`. -/
theorem c5_witness :
    includeResolve (options ⟨"b", "s", "d", "v"⟩ []) "partial" =
      ("b/s/partial.slm", "slm") ∧
    (includeResolve (options ⟨"b", "s", "d", "v"⟩ []) "code.md").1 = "b/s/code.md" :=
  ⟨((c5_include_resolution ⟨"b", "s", "d", "v"⟩ [] "partial").1 rfl).trans (by decide),
   ((c5_include_resolution ⟨"b", "s", "d", "v"⟩ [] "code.md").2 (by decide)).trans
     (by decide)⟩

/-- C6: in compile.md the include pass completes before the variable pass:
the document consisting of one include directive first becomes the
included fragment (which still carries a `\x7b\x7b this.title \x7d\x7d`
token), and the full compile then resolves that token against the same
configuration, yielding the configured title. -/
theorem c6_includes_before_vars (cfg : JsObj) (v : String)
    (hv : lookupField cfg "title" = some (JsValue.str v)) (hd : noDollar v = true) :
    mrkdwn_slm incC6 "include\x7b\x7b partial \x7d\x7d" =
      "\x7b\x7b this.title \x7d\x7d" ∧
    compileMd fsysC6 id incC6 (JsValue.obj cfg) "doc.md" = some v := by
  refine ⟨rfl, ?_⟩
  have hbody : compileMdBody fsysC6 id incC6 (JsValue.obj cfg) "doc.md" =
      mrkdwn_vars (JsValue.obj cfg) "\x7b\x7b this.title \x7d\x7d" := rfl
  have htrav : traverseCfg (JsValue.obj cfg)
      (varPath "\x7b\x7b this.title \x7d\x7d") = .ok (JsValue.str v) := by
    rw [show varPath "\x7b\x7b this.title \x7d\x7d" = ["title"] from rfl]
    simp [traverseCfg, getField, hv]
  unfold compileMd
  rw [hbody, mrkdwn_vars_single_ok (JsValue.obj cfg) "\x7b\x7b this.title \x7d\x7d"
      "\x7b\x7b this.title \x7d\x7d" _ rfl (by decide) htrav,
    show jsToString (JsValue.str v) = v from rfl,
    jsReplace_self _ _ (noDollar_spec v hd)]

/-- C6 witness: the concrete pipeline with `title = "Hello"`. -/
theorem c6_witness :
    mrkdwn_slm incC6 "include\x7b\x7b partial \x7d\x7d" =
      "\x7b\x7b this.title \x7d\x7d" ∧
    compileMd fsysC6 id incC6 (JsValue.obj [("title", JsValue.str "Hello")])
      "doc.md" = some "Hello" :=
  c6_includes_before_vars [("title", JsValue.str "Hello")] "Hello" rfl rfl

/-- C7: a `\x7b\x7b this.a.b \x7d\x7d` token whose first path step `a` is
absent from the configuration makes the traversal dereference an
undefined intermediate: the variable pass throws a TypeError, compile.md
catches it (logging it) and returns `undefined` — no usable output, no
uncaught error, so sibling files of a batch are unaffected. -/
theorem c7_soft_fail (cfg : JsObj) (ha : lookupField cfg "a" = none) :
    (∃ e, mrkdwn_vars (JsValue.obj cfg) "\x7b\x7b this.a.b \x7d\x7d" = .error e) ∧
    compileMd fsysC7 id (fun _ => "") (JsValue.obj cfg) "doc.md" = none := by
  have htrav : traverseCfg (JsValue.obj cfg) (varPath "\x7b\x7b this.a.b \x7d\x7d") =
      .error "TypeError: Cannot read properties of undefined (reading b)" := by
    rw [show varPath "\x7b\x7b this.a.b \x7d\x7d" = ["a", "b"] from rfl]
    simp [traverseCfg, getField, ha]
  have hvars : mrkdwn_vars (JsValue.obj cfg) "\x7b\x7b this.a.b \x7d\x7d" =
      .error "TypeError: Cannot read properties of undefined (reading b)" :=
    mrkdwn_vars_single_err (JsValue.obj cfg) "\x7b\x7b this.a.b \x7d\x7d"
      "\x7b\x7b this.a.b \x7d\x7d" _ rfl (by decide) htrav
  have hbody : compileMdBody fsysC7 id (fun _ => "") (JsValue.obj cfg) "doc.md" =
      mrkdwn_vars (JsValue.obj cfg) "\x7b\x7b this.a.b \x7d\x7d" := rfl
  refine ⟨⟨_, hvars⟩, ?_⟩
  unfold compileMd
  rw [hbody, hvars]

/-- C7 witness: the empty configuration has no key `a`. -/
theorem c7_witness :
    (∃ e, mrkdwn_vars (JsValue.obj []) "\x7b\x7b this.a.b \x7d\x7d" = .error e) ∧
    compileMd fsysC7 id (fun _ => "") (JsValue.obj []) "doc.md" = none :=
  c7_soft_fail [] rfl

/-- C8: on a path whose file does not exist, each of the three registered
compilers — slm, markdown and the raw passthrough — returns the empty
string instead of raising; compile.slm's early return also leaves the
caller's locals untouched. -/
theorem c8_missing_file (fsys : String → Option String)
    (engine : String → String → JsObj → Except String String)
    (beaut : String → JsValue → String) (render : String → String)
    (inc : String → String) (cfgv : JsValue) (cfg locals : JsObj) (file : String)
    (h : fsys file = none) :
    compileSlm fsys engine beaut cfg locals file = (some "", locals) ∧
    compileMd fsys render inc cfgv file = some "" ∧
    compileDefault fsys file = some "" := by
  refine ⟨?_, ?_, ?_⟩
  · simp [compileSlm, h]
  · simp [compileMd, compileMdBody, h]
  · simp [compileDefault, h]

/-- C8 witness: a filesystem with no files. -/
theorem c8_missing_file_witness :
    compileSlm (fun _ => none) engineOk beautId [] [("x", JsValue.str "0")]
      "missing.slm" = (some "", [("x", JsValue.str "0")]) ∧
    compileMd (fun _ => none) id (fun _ => "") (JsValue.obj []) "missing.slm" =
      some "" ∧
    compileDefault (fun _ => none) "missing.slm" = some "" :=
  c8_missing_file (fun _ => none) engineOk beautId id (fun _ => "")
    (JsValue.obj []) [] [("x", JsValue.str "0")] "missing.slm" rfl

/-- C9: the markdown include pass inserts the compiled fragment through
JavaScript's pattern-replace (`String.prototype.replace` expands `$`
sequences in the replacement), not literal substitution: for the fragment
`$&` the pass reproduces the directive itself, whereas literally
substituting the fragment for the directive would yield `$&`. -/
theorem c9_pattern_replace :
    mrkdwn_slm incDollar "include\x7b\x7b a \x7d\x7d" = "include\x7b\x7b a \x7d\x7d" ∧
    literalReplace "include\x7b\x7b a \x7d\x7d" "include\x7b\x7b a \x7d\x7d" "$&" =
      "$&" ∧
    mrkdwn_slm incDollar "include\x7b\x7b a \x7d\x7d" ≠
      literalReplace "include\x7b\x7b a \x7d\x7d" "include\x7b\x7b a \x7d\x7d" "$&" :=
  ⟨by decide, by decide, by decide⟩

/-- C10: main and walk classify a path as a template by substring
containment of the configured extension, not by suffix: every path
containing `.slm` anywhere is routed to compile-and-write, including
`notes.slm.bak` (which does not end in the extension) and a markdown file
inside a directory named `x.slm`. -/
theorem c10_substring_classification :
    (∀ (g : GlobalCfg) (cfg : JsObj) (file : String),
        jsIncludes file ".slm" = true → mainCompiles (options g cfg) file = true) ∧
    mainCompiles (options ⟨"b", "s", "d", "v"⟩ []) "notes.slm.bak" = true ∧
    isSuffixL ".slm".data "notes.slm.bak".data = false ∧
    (walkResolve (options ⟨"b", "s", "d", "v"⟩ []) "b/s/v/x.slm/readme.md" none).2 =
      true := by
  refine ⟨?_, by decide, by decide, by decide⟩
  intro g cfg file h
  exact h

/-- C10 witness: a backup file containing the extension mid-name is
classified as a template. -/
theorem c10_witness :
    mainCompiles (options ⟨"b", "s", "d", "v"⟩ []) "layout.slm.orig" = true :=
  c10_substring_classification.1 ⟨"b", "s", "d", "v"⟩ [] "layout.slm.orig" (by decide)

end Slm
